import Mathlib

/-!
Shallow embedding of `koa-rest-router` (src/index.js) in Lean 4.

The repository's own helper module `./utils` and the base router
(`koa-better-router`) are not part of `src/`; the definitions taken from
them are modelled from the specification and marked as such in their doc
comments.  Everything else is translated directly from `src/index.js`.
-/

namespace KoaRestRouter

/-- A middleware handler attached to a route.  Handlers are opaque
functions in JavaScript; we model them as an inductive so that distinct
handlers can be told apart.  `notImplemented` is the default
"respond 501 Not Implemented" handler of the default controller. -/
inductive Handler where
  | notImplemented : Handler
  | user (id : Nat) : Handler
deriving DecidableEq, Repr

/-- A route object ("Route Descriptor"): one (verb, path pattern,
handler chain) binding, as produced by the base router's `createRoute`. -/
structure Route where
  method : String
  route : String
  handlers : List Handler
deriving DecidableEq, Repr

/-- A JavaScript controller object: a finite mapping from property names
to handler chains.  Modelled as an association list where the first
matching key wins (later additions are prepended, mirroring object
overlay order). -/
abbrev Controller := List (String × List Handler)

/-- A resource table: the array of route objects returned by
`createResource`, together with the `name` tag the code attaches to it. -/
structure ResourceTable where
  name : String
  routes : List Route
deriving DecidableEq, Repr

/-- The persistent `options.methods` object: request-method names for
the canonical verb slots.  `del` and `delete` are the two alternative
key names for the delete verb; `del` may be absent. -/
structure Methods where
  get : String
  put : String
  post : String
  delete : String
  del : Option String
deriving DecidableEq, Repr

/-- The persistent `options.map` object: controller method names to be
called for each of the seven canonical actions. -/
structure ActionMap where
  index : String
  new : String
  create : String
  «show» : String
  edit : String
  update : String
  remove : String
deriving DecidableEq, Repr

/-- A caller-supplied partial override of `options.methods`: absent keys
are `none` and leave the persistent value unchanged. -/
structure MethodsPatch where
  get : Option String
  put : Option String
  post : Option String
  del : Option String
  delete : Option String
deriving DecidableEq, Repr

/-- A caller-supplied partial override of `options.map`. -/
structure ActionMapPatch where
  index : Option String
  new : Option String
  create : Option String
  «show» : Option String
  edit : Option String
  update : Option String
  remove : Option String
deriving DecidableEq, Repr

/-- The `methods`/`map` portion of an options object passed by a caller. -/
structure OptionsPatch where
  methods : MethodsPatch
  map : ActionMapPatch
deriving DecidableEq, Repr

/-- The router's persistent configuration (its merged `options`). -/
structure Options where
  methods : Methods
  map : ActionMap
deriving DecidableEq, Repr

/-- A JavaScript object argument as read by `createResource`: the same
object can be read as a controller (its handler-valued properties) or
as an options override (its `methods`/`map` properties). -/
structure JsObj where
  ctrl : Controller
  patch : OptionsPatch

/-- The state of a `KoaRestRouter` instance: its merged options and the
two registries `routes` and `resources`. -/
structure RouterState where
  options : Options
  routes : List Route
  resources : List ResourceTable

/-- The opaque pluralize/singularize string transforms supplied by the
external `inflection` library (out of scope, treated as parameters). -/
structure Inflection where
  pluralize : String → String
  singularize : String → String

/-- The first (`name`) argument of `createResource`: a string, an object
(controller-only call style), or any other non-string non-object value. -/
inductive NameArg where
  | str (s : String) : NameArg
  | obj (o : JsObj) : NameArg
  | otherNonString : NameArg

/-- Modelled from the spec: the base router's default request-method
names; unspecified keys default to canonical HTTP verbs, with the
delete verb reachable through either the `del` or the `delete` key. -/
def defaultRequestMethods : Methods :=
  { get := "GET", put := "PUT", post := "POST", delete := "DELETE", del := none }

/-- Modelled from the spec: the default controller-method map; each of
the seven canonical actions maps to its own name. -/
def defaultControllerMap : ActionMap :=
  { index := "index", new := "new", create := "create", «show» := "show"
    edit := "edit", update := "update", remove := "remove" }

/-- Modelled from the spec: the default controller whose seven entries
are all "respond 501 Not Implemented" handlers. -/
def defaultController : Controller :=
  [("index", [Handler.notImplemented]), ("new", [Handler.notImplemented]),
   ("create", [Handler.notImplemented]), ("show", [Handler.notImplemented]),
   ("edit", [Handler.notImplemented]), ("update", [Handler.notImplemented]),
   ("remove", [Handler.notImplemented])]

/-- The default persistent configuration installed by the constructor. -/
def defaultOptions : Options :=
  { methods := defaultRequestMethods, map := defaultControllerMap }

/-- An options argument that overrides nothing (e.g. `opts` omitted). -/
def noPatch : OptionsPatch :=
  { methods := { get := none, put := none, post := none, del := none, delete := none }
    map := { index := none, new := none, create := none, «show» := none
             edit := none, update := none, remove := none } }

/-- Modelled from the spec: shallow per-key merge of a `methods`
override into the persistent `methods`; an overriding key wins, an
absent key keeps the persistent value. -/
def mergeMethods (o : Methods) (p : MethodsPatch) : Methods :=
  { get := p.get.getD o.get
    put := p.put.getD o.put
    post := p.post.getD o.post
    delete := p.delete.getD o.delete
    del := match p.del with | some v => some v | none => o.del }

/-- Modelled from the spec: shallow per-key merge of a `map` override
into the persistent `map`. -/
def mergeMap (o : ActionMap) (p : ActionMapPatch) : ActionMap :=
  { index := p.index.getD o.index
    new := p.new.getD o.new
    create := p.create.getD o.create
    «show» := p.«show».getD o.«show»
    edit := p.edit.getD o.edit
    update := p.update.getD o.update
    remove := p.remove.getD o.remove }

/-- Modelled from the spec: `utils.mergeOptions` — shallow merge of the
caller-supplied overrides into the persistent options, override wins
per key. -/
def mergeOptions (o : Options) (p : OptionsPatch) : Options :=
  { methods := mergeMethods o.methods p.methods, map := mergeMap o.map p.map }

/-- The `methods`/`map` view of an optional object argument; an omitted
argument (`undefined`) overrides nothing. -/
def patchOf : Option JsObj → OptionsPatch
  | some o => o.patch
  | none => noPatch

/-- The controller view of an optional object argument; an omitted
argument contributes no controller entries. -/
def ctrlOf : Option JsObj → Controller
  | some o => o.ctrl
  | none => []

/-- Property lookup on a controller object (first matching key wins). -/
def ctrlGet : Controller → String → Option (List Handler)
  | [], _ => none
  | (k, hs) :: rest, key => if k = key then some hs else ctrlGet rest key

/-- Modelled from the spec: `utils.extend({}, base, override)` — object
overlay where the override's keys shadow the base's. -/
def extendCtrl (base override : Controller) : Controller :=
  override ++ base

/-- The handler chain actually passed to `createRoute` for a controller
key: an absent property yields the empty chain (`arrayify(undefined)`). -/
def handlersOf (c : Controller) (key : String) : List Handler :=
  (ctrlGet c key).getD []

/-- Upper-casing of a verb string, character by character. -/
def upper (s : String) : String :=
  String.mk (s.data.map Char.toUpper)

/-- Modelled from the spec: the base router's `createRoute(verb, path,
handlers)` primitive.  It normalises the verb to upper case (so a
configured `put: 'post'` produces the verb `POST`). -/
def createRoute (method route : String) (handlers : List Handler) : Route :=
  { method := upper method, route := route, handlers := handlers }

/-- Modelled from the spec: `utils.r` — joins the given path segments
into a route pattern, dropping empty segments, so the root resource's
patterns collapse to `/`, `/new`, `/:id`, ... -/
def r (parts : List String) : String :=
  "/" ++ String.intercalate "/" (parts.filter (fun s => s != ""))

/-- `name[0] === '/' ? name.slice(1) : name` from `createResource`. -/
def stripName (s : String) : String :=
  if s.data.head? = some '/' then String.mk (s.data.drop 1) else s

/-- Translation of `KoaRestRouter.prototype.createResource`.  The
argument-shift at the top (`typeof name === 'object'`) reinterprets an
object `name` as the controller and the original controller slot as the
options; any other non-string `name` falls back to the root name `/`. -/
def createResource (infl : Inflection) (st : RouterState) (name : NameArg)
    (ctrl opts : Option JsObj) : RouterState × ResourceTable :=
  let args : String × Option JsObj × Option JsObj :=
    match name with
    | NameArg.str s => (s, ctrl, opts)
    | NameArg.obj o => ("/", some o, ctrl)
    | NameArg.otherNonString => ("/", ctrl, opts)
  let name := args.1
  let ctrl := args.2.1
  let opts := args.2.2
  let n := stripName name
  let route := if name ≠ "/" then infl.pluralize n else ""
  let param := if name ≠ "/" then ":" ++ infl.singularize n else ":id"
  let options := mergeOptions st.options (patchOf opts)
  let c := extendCtrl defaultController (ctrlOf ctrl)
  let mGet := options.methods.get
  let mPut := options.methods.put
  let mDel := options.methods.del.getD options.methods.delete
  let mPost := options.methods.post
  let src : List Route :=
    [createRoute mGet (r [route]) (handlersOf c options.map.index),
     createRoute mGet (r [route, "new"]) (handlersOf c options.map.new),
     createRoute mPost (r [route]) (handlersOf c options.map.create),
     createRoute mGet (r [route, param]) (handlersOf c options.map.«show»),
     createRoute mGet (r [route, param, "edit"]) (handlersOf c options.map.edit),
     createRoute mPut (r [route, param]) (handlersOf c options.map.update),
     createRoute mDel (r [route, param]) (handlersOf c options.map.remove)]
  let table : ResourceTable := { name := if route = "" then "/" else route, routes := src }
  ({ st with options := options, resources := st.resources ++ [table] }, table)

/-- Translation of `KoaRestRouter.prototype.addRoutes`: concatenates
any number of route arrays onto `this.routes`. -/
def addRoutes (st : RouterState) (args : List (List Route)) : RouterState :=
  { st with routes := st.routes ++ args.flatten }

/-- Translation of `KoaRestRouter.prototype.addResource`. -/
def addResource (st : RouterState) (table : ResourceTable) : RouterState :=
  addRoutes st [table.routes]

/-- Translation of `KoaRestRouter.prototype.addResources`, an alias of
`addRoutes`. -/
def addResources (st : RouterState) (args : List (List Route)) : RouterState :=
  addRoutes st args

/-- Translation of `KoaRestRouter.prototype.resource`: build the
resource, then register it into `routes`. -/
def resource (infl : Inflection) (st : RouterState) (name : NameArg)
    (ctrl opts : Option JsObj) : RouterState :=
  let res := createResource infl st name ctrl opts
  addResource res.1 res.2

/-- Translation of `KoaRestRouter.prototype.getRoutes`. -/
def getRoutes (st : RouterState) : List Route :=
  st.routes

/-- Translation of `KoaRestRouter.prototype.getResources`. -/
def getResources (st : RouterState) : List ResourceTable :=
  st.resources

/-- The loop body of `getResource`: scan the list for the first table
whose `name` equals the query, else `null`. -/
def findResource (name : String) : List ResourceTable → Option ResourceTable
  | [] => none
  | t :: ts => if t.name = name then some t else findResource name ts

/-- Translation of `KoaRestRouter.prototype.getResource`. -/
def getResource (st : RouterState) (name : String) : Option ResourceTable :=
  findResource name st.resources

/-- Translation of the `KoaRestRouter` constructor: merge the supplied
options over the defaults, start with empty registries. -/
def mkRouter (p : OptionsPatch) : RouterState :=
  { options := mergeOptions defaultOptions p, routes := [], resources := [] }

/-- A router constructed with no options. -/
def initialState : RouterState :=
  mkRouter noPatch

/-- Modelled from the spec: `utils.createRouteObject(self, destRoute,
src, index)` — merge one source descriptor into an accumulated
descriptor: the verb is taken from the destination unchanged, the path
is the concatenation of the two paths, and the handlers are replaced by
the source's.  Reading past the end of `src` is the JavaScript
`TypeError`, modelled as `none`. -/
def createRouteObject (dest : Route) (src : List Route) (i : Nat) : Option Route :=
  (src[i]?).map fun s =>
    { method := dest.method, route := dest.route ++ s.route, handlers := s.handlers }

/-- One guarded `if (srcN) route = utils.createRouteObject(...)` step of
`group`: an absent argument leaves the accumulated descriptor alone. -/
def applySrc (acc : Route) (src : Option (List Route)) (i : Nat) : Option Route :=
  match src with
  | none => some acc
  | some s => createRouteObject acc s i

/-- The body of `group`'s `dest.map` callback at index `i`: `src1` is
used unguarded (a missing `src1` is a `TypeError` once the callback
runs), then `src2`..`src4` are applied when present. -/
def groupAt (d : Route) (i : Nat)
    (src1 src2 src3 src4 : Option (List Route)) : Option Route := do
  let s1 ← src1
  let acc1 ← createRouteObject d s1 i
  let acc2 ← applySrc acc1 src2 i
  let acc3 ← applySrc acc2 src3 i
  applySrc acc3 src4 i

/-- The `dest.map((destRoute, index) => ...)` loop of `group`, carrying
the running index. -/
def groupGo (dest : List Route) (i : Nat)
    (src1 src2 src3 src4 : Option (List Route)) : Option (List Route) :=
  match dest with
  | [] => some []
  | d :: rest => do
      let merged ← groupAt d i src1 src2 src3 src4
      let others ← groupGo rest (i + 1) src1 src2 src3 src4
      pure (merged :: others)

/-- Translation of `KoaRestRouter.prototype.group (dest, src1, src2,
src3, src4)`.  `none` models a call that throws. -/
def group (dest : List Route) (src1 src2 src3 src4 : Option (List Route)) :
    Option (List Route) :=
  groupGo dest 0 src1 src2 src3 src4

/-- A JavaScript call `router.group(dest, ...srcs)` with an arbitrary
argument list: the declared parameters bind the first four source
arguments and any further arguments are not bound at all. -/
def groupCall (dest : List Route) (srcs : List (List Route)) : Option (List Route) :=
  group dest srcs[0]? srcs[1]? srcs[2]? srcs[3]?

/-- `group` as a method on the router state: it reads nothing from and
writes nothing to the instance (`this.routes` / `this.resources`). -/
def groupMethod (st : RouterState) (dest : List Route)
    (src1 src2 src3 src4 : Option (List Route)) :
    RouterState × Option (List Route) :=
  (st, group dest src1 src2 src3 src4)

/-- Element of a route list at `i`, with an inert dummy out of range
(used only to state theorems whose hypotheses keep `i` in range). -/
def nthR (l : List Route) (i : Nat) : Route :=
  l.getD i { method := "", route := "", handlers := [] }

/-- The route-path contribution of an optional source at index `i`. -/
def optRoute (s : Option (List Route)) (i : Nat) : String :=
  match s with
  | none => ""
  | some l => (nthR l i).route

/-- The last source argument actually provided to `group`. -/
def lastSrc (s1 : List Route) (s2 s3 s4 : Option (List Route)) : List Route :=
  s4.getD (s3.getD (s2.getD s1))

/-- A concrete inflection used for witnesses: pluralize is the identity
and singularize drops the final character (so `cats` → `:cat`). -/
def inflId : Inflection :=
  { pluralize := fun s => s, singularize := fun s => String.mk s.data.dropLast }

/-- A sample resource creation, for witnesses. -/
def sampleTable : ResourceTable :=
  (createResource inflId initialState (NameArg.str "cats") none none).2

/-- The router state after the sample resource creation. -/
def sampleState : RouterState :=
  (createResource inflId initialState (NameArg.str "cats") none none).1

/-! Helper lemmas about path-pattern construction. -/

theorem intercalate_one (sep a : String) : String.intercalate sep [a] = a := rfl

theorem intercalate_two (sep a b : String) :
    String.intercalate sep [a, b] = a ++ sep ++ b := rfl

theorem intercalate_three (sep a b c : String) :
    String.intercalate sep [a, b, c] = a ++ sep ++ b ++ sep ++ c := rfl

theorem colon_append_ne (x : String) : (":" ++ x) ≠ "" := by
  intro h
  have h' := congrArg String.data h
  simp at h'

theorem r_one (s : String) (h : s ≠ "") : r [s] = "/" ++ s := by
  simp [r, h, intercalate_one]

theorem r_two (s t : String) (hs : s ≠ "") (ht : t ≠ "") :
    r [s, t] = "/" ++ s ++ "/" ++ t := by
  simp [r, hs, ht, intercalate_two, String.append_assoc]

theorem r_three (s t u : String) (hs : s ≠ "") (ht : t ≠ "") (hu : u ≠ "") :
    r [s, t, u] = "/" ++ s ++ "/" ++ t ++ "/" ++ u := by
  simp [r, hs, ht, hu, intercalate_three, String.append_assoc]

/-- `mergeOptions` with an empty override changes nothing. -/
theorem mergeOptions_noPatch (o : Options) : mergeOptions o noPatch = o := rfl

/-! Helper lemmas about `findResource`. -/

theorem findResource_eq_none (name : String) (l : List ResourceTable) :
    findResource name l = none ↔ ∀ t ∈ l, t.name ≠ name := by
  induction l with
  | nil => simp [findResource]
  | cons t ts ih =>
      by_cases h : t.name = name
      · simp [findResource, h]
      · simp [findResource, h, ih]

theorem findResource_some (name : String) (l : List ResourceTable) (t : ResourceTable)
    (h : findResource name l = some t) : t ∈ l ∧ t.name = name := by
  induction l with
  | nil => simp [findResource] at h
  | cons u us ih =>
      by_cases hu : u.name = name
      · simp [findResource, hu] at h
        subst h
        exact ⟨List.mem_cons_self _ _, hu⟩
      · simp [findResource, hu] at h
        rcases ih h with ⟨hm, hn⟩
        exact ⟨List.mem_cons_of_mem _ hm, hn⟩

theorem findResource_prefix (name : String) (pre : List ResourceTable)
    (t : ResourceTable) (suf : List ResourceTable)
    (ht : t.name = name) (hpre : ∀ p ∈ pre, p.name ≠ name) :
    findResource name (pre ++ t :: suf) = some t := by
  induction pre with
  | nil => simp [findResource, ht]
  | cons p ps ih =>
      have hp : p.name ≠ name := hpre p (List.mem_cons_self _ _)
      simp only [List.cons_append, findResource, hp, if_false]
      exact ih fun q hq => hpre q (List.mem_cons_of_mem _ hq)

/-- Claim C9: `getResource` performs a linear scan of the `resources`
registry in creation order and returns the first table whose `name`
equals the query — the very table stored in the registry — and `null`
(here `none`) when no table matches. -/
theorem getResource_first_match (st : RouterState) (name : String) :
    (getResource st name = none ↔ ∀ t ∈ st.resources, t.name ≠ name) ∧
    (∀ t, getResource st name = some t → t ∈ st.resources ∧ t.name = name) ∧
    (∀ pre t suf, st.resources = pre ++ t :: suf → t.name = name →
      (∀ p ∈ pre, p.name ≠ name) → getResource st name = some t) := by
  refine ⟨findResource_eq_none name st.resources, ?_, ?_⟩
  · exact fun t h => findResource_some name st.resources t h
  · intro pre t suf hsplit ht hpre
    unfold getResource
    rw [hsplit]
    exact findResource_prefix name pre t suf ht hpre

/-- Witness for C9 at a concrete registry. -/
theorem getResource_first_match_witness :
    getResource sampleState "cats" = some sampleTable ∧
    getResource sampleState "dogs" = none := by
  constructor
  · exact (getResource_first_match sampleState "cats").2.2 [] sampleTable []
      (by decide) (by decide) (by simp)
  · exact (getResource_first_match sampleState "dogs").1.mpr (by decide)

/-- Claim C8: `addRoutes` concatenates its argument sequences onto
`routes` in order, with no deduplication, growing `routes` by the sum
of the argument lengths; `addResources` is an alias, and neither
touches `options` or `resources`. -/
theorem addRoutes_concat (st : RouterState) (a b : List Route) (args : List (List Route)) :
    (addRoutes st [a, b]).routes = st.routes ++ a ++ b ∧
    (addRoutes st [a, b]).routes.length = st.routes.length + a.length + b.length ∧
    (addRoutes st args).routes = st.routes ++ args.flatten ∧
    (addRoutes st args).routes.length = st.routes.length + (args.map List.length).sum ∧
    addResources st args = addRoutes st args ∧
    (addRoutes st args).options = st.options ∧
    (addRoutes st args).resources = st.resources := by
  refine ⟨?_, ?_, rfl, ?_, rfl, rfl, rfl⟩
  · simp [addRoutes, List.append_assoc]
  · simp [addRoutes, List.length_append]
    omega
  · simp [addRoutes, List.length_append, List.length_flatten]

/-! Helper lemmas about `group`. -/

theorem createRouteObject_eq (d : Route) (s : List Route) (i : Nat) (h : i < s.length) :
    createRouteObject d s i = some
      { method := d.method, route := d.route ++ (nthR s i).route,
        handlers := (nthR s i).handlers } := by
  simp [createRouteObject, List.getElem?_eq_getElem h, nthR, List.getD]

theorem applySrc_spec (acc : Route) (s : Option (List Route)) (i : Nat)
    (h : ∀ l, s = some l → i < l.length) :
    applySrc acc s i = some
      { method := acc.method,
        route := acc.route ++ optRoute s i,
        handlers := (s.map fun l => (nthR l i).handlers).getD acc.handlers } := by
  cases s with
  | none => simp [applySrc, optRoute]
  | some l => simp [applySrc, createRouteObject_eq acc l i (h l rfl), optRoute]

theorem lastSrc_handlers (s1 : List Route) (s2 s3 s4 : Option (List Route)) (i : Nat) :
    ((s4.map fun l => (nthR l i).handlers).getD
      ((s3.map fun l => (nthR l i).handlers).getD
        ((s2.map fun l => (nthR l i).handlers).getD (nthR s1 i).handlers)))
    = (nthR (lastSrc s1 s2 s3 s4) i).handlers := by
  rcases s2 <;> rcases s3 <;> rcases s4 <;> simp [lastSrc]

theorem nthR_cons_zero (a : Route) (l : List Route) : nthR (a :: l) 0 = a := rfl

theorem nthR_cons_succ (a : Route) (l : List Route) (j : Nat) :
    nthR (a :: l) (j + 1) = nthR l j := rfl

theorem groupAt_full (d : Route) (i : Nat) (s1 : List Route)
    (s2 s3 s4 : Option (List Route))
    (h1 : i < s1.length)
    (h2 : ∀ l, s2 = some l → i < l.length)
    (h3 : ∀ l, s3 = some l → i < l.length)
    (h4 : ∀ l, s4 = some l → i < l.length) :
    groupAt d i (some s1) s2 s3 s4 = some
      { method := d.method,
        route := d.route ++ (nthR s1 i).route ++ optRoute s2 i ++ optRoute s3 i
          ++ optRoute s4 i,
        handlers := (nthR (lastSrc s1 s2 s3 s4) i).handlers } := by
  cases s2 with
  | none =>
    cases s3 with
    | none =>
      cases s4 with
      | none =>
        simp [groupAt, applySrc, createRouteObject_eq, h1, optRoute, lastSrc]
      | some l4 =>
        have b4 := h4 l4 rfl
        simp [groupAt, applySrc, createRouteObject_eq, h1, b4, optRoute, lastSrc]
    | some l3 =>
      have b3 := h3 l3 rfl
      cases s4 with
      | none =>
        simp [groupAt, applySrc, createRouteObject_eq, h1, b3, optRoute, lastSrc]
      | some l4 =>
        have b4 := h4 l4 rfl
        simp [groupAt, applySrc, createRouteObject_eq, h1, b3, b4, optRoute, lastSrc]
  | some l2 =>
    have b2 := h2 l2 rfl
    cases s3 with
    | none =>
      cases s4 with
      | none =>
        simp [groupAt, applySrc, createRouteObject_eq, h1, b2, optRoute, lastSrc]
      | some l4 =>
        have b4 := h4 l4 rfl
        simp [groupAt, applySrc, createRouteObject_eq, h1, b2, b4, optRoute, lastSrc]
    | some l3 =>
      have b3 := h3 l3 rfl
      cases s4 with
      | none =>
        simp [groupAt, applySrc, createRouteObject_eq, h1, b2, b3, optRoute, lastSrc]
      | some l4 =>
        have b4 := h4 l4 rfl
        simp [groupAt, applySrc, createRouteObject_eq, h1, b2, b3, b4, optRoute, lastSrc]

theorem groupGo_spec (s1 : List Route) (s2 s3 s4 : Option (List Route)) :
    ∀ (dest : List Route) (k : Nat),
    k + dest.length ≤ s1.length →
    (∀ l, s2 = some l → k + dest.length ≤ l.length) →
    (∀ l, s3 = some l → k + dest.length ≤ l.length) →
    (∀ l, s4 = some l → k + dest.length ≤ l.length) →
    ∃ out, groupGo dest k (some s1) s2 s3 s4 = some out ∧
      out.length = dest.length ∧
      ∀ j, j < dest.length →
        (nthR out j).method = (nthR dest j).method ∧
        (nthR out j).route = (nthR dest j).route ++ (nthR s1 (k + j)).route ++
          optRoute s2 (k + j) ++ optRoute s3 (k + j) ++ optRoute s4 (k + j) ∧
        (nthR out j).handlers = (nthR (lastSrc s1 s2 s3 s4) (k + j)).handlers := by
  intro dest
  induction dest with
  | nil =>
      intro k _ _ _ _
      exact ⟨[], rfl, rfl, fun j hj => absurd hj (by simp)⟩
  | cons d rest ih =>
      intro k hk1 hk2 hk3 hk4
      have hb1 : k < s1.length := by simp at hk1; omega
      have hb2 : ∀ l, s2 = some l → k < l.length := by
        intro l hl
        have := hk2 l hl
        simp at this
        omega
      have hb3 : ∀ l, s3 = some l → k < l.length := by
        intro l hl
        have := hk3 l hl
        simp at this
        omega
      have hb4 : ∀ l, s4 = some l → k < l.length := by
        intro l hl
        have := hk4 l hl
        simp at this
        omega
      have hr1 : (k + 1) + rest.length ≤ s1.length := by simp at hk1; omega
      have hr2 : ∀ l, s2 = some l → (k + 1) + rest.length ≤ l.length := by
        intro l hl
        have := hk2 l hl
        simp at this
        omega
      have hr3 : ∀ l, s3 = some l → (k + 1) + rest.length ≤ l.length := by
        intro l hl
        have := hk3 l hl
        simp at this
        omega
      have hr4 : ∀ l, s4 = some l → (k + 1) + rest.length ≤ l.length := by
        intro l hl
        have := hk4 l hl
        simp at this
        omega
      obtain ⟨out, hout, hlen, hidx⟩ := ih (k + 1) hr1 hr2 hr3 hr4
      refine ⟨{ method := d.method,
                route := d.route ++ (nthR s1 k).route ++ optRoute s2 k ++ optRoute s3 k
                  ++ optRoute s4 k,
                handlers := (nthR (lastSrc s1 s2 s3 s4) k).handlers } :: out,
        ?_, by simp [hlen], ?_⟩
      · simp [groupGo, groupAt_full d k s1 s2 s3 s4 hb1 hb2 hb3 hb4, hout]
      · intro j hj
        cases j with
        | zero => simp [nthR_cons_zero]
        | succ j' =>
            have hj' : j' < rest.length := by simpa using hj
            have h := hidx j' hj'
            have harith : k + 1 + j' = k + (j' + 1) := by omega
            rw [nthR_cons_succ, nthR_cons_succ]
            simpa [harith] using h

/-- Claim C2: `group` returns a brand-new sequence of `dest.length`
descriptors; at each index the verb is `dest[i]`'s verb, the path is
the destination path extended with each provided source's path in
argument order, and the handlers are those of the last provided source;
the router state (`routes`, `resources`) is untouched. -/
theorem group_merge_spec (st : RouterState) (dest s1 : List Route)
    (s2 s3 s4 : Option (List Route))
    (h1 : dest.length ≤ s1.length)
    (h2 : ∀ l, s2 = some l → dest.length ≤ l.length)
    (h3 : ∀ l, s3 = some l → dest.length ≤ l.length)
    (h4 : ∀ l, s4 = some l → dest.length ≤ l.length) :
    ∃ out, group dest (some s1) s2 s3 s4 = some out ∧
      groupMethod st dest (some s1) s2 s3 s4 = (st, some out) ∧
      out.length = dest.length ∧
      ∀ i, i < dest.length →
        (nthR out i).method = (nthR dest i).method ∧
        (nthR out i).route = (nthR dest i).route ++ (nthR s1 i).route ++
          optRoute s2 i ++ optRoute s3 i ++ optRoute s4 i ∧
        (nthR out i).handlers = (nthR (lastSrc s1 s2 s3 s4) i).handlers := by
  obtain ⟨out, hout, hlen, hidx⟩ := groupGo_spec s1 s2 s3 s4 dest 0
    (by simpa using h1)
    (by intro l hl; simpa using h2 l hl)
    (by intro l hl; simpa using h3 l hl)
    (by intro l hl; simpa using h4 l hl)
  refine ⟨out, hout, ?_, hlen, ?_⟩
  · simp [groupMethod, group, hout]
  · intro i hi
    simpa using hidx i hi

/-- Witness for C2: grouping two concrete resource tables. -/
theorem group_merge_spec_witness :
    0 < (sampleTable.routes.length) ∧
    (∃ out, group sampleTable.routes (some sampleTable.routes) none none none = some out ∧
      out.length = 7) := by
  have h := group_merge_spec initialState sampleTable.routes sampleTable.routes
    none none none (le_refl _)
    (by intro l hl; cases hl) (by intro l hl; cases hl) (by intro l hl; cases hl)
  obtain ⟨out, hout, _, hlen, _⟩ := h
  exact ⟨by decide, ⟨out, hout, by simpa using hlen⟩⟩

/-- Claim C10: a call to `group` binds only its first four source
arguments, so sources beyond the fourth never influence the result. -/
theorem group_ignores_extra_sources (dest : List Route) (srcs : List (List Route)) :
    groupCall dest srcs = groupCall dest (srcs.take 4) := by
  rcases srcs with _ | ⟨a, _ | ⟨b, _ | ⟨c, _ | ⟨d, rest⟩⟩⟩⟩ <;>
    simp [groupCall, List.take]

/-- Claim C4: `createResource` appends the 7-descriptor table to
`resources`, tags it with the route segment (root marker `/` when the
segment is empty), and leaves `routes` untouched; `resource` appends
exactly 7 descriptors to `routes` and 1 table to `resources`. -/
theorem createResource_registry_effects (infl : Inflection) (st : RouterState)
    (name : NameArg) (ctrlA optsA : Option JsObj) :
    (createResource infl st name ctrlA optsA).1.routes = st.routes ∧
    (createResource infl st name ctrlA optsA).1.resources
      = st.resources ++ [(createResource infl st name ctrlA optsA).2] ∧
    (createResource infl st name ctrlA optsA).2.routes.length = 7 ∧
    (∀ n, name = NameArg.str n →
      (createResource infl st name ctrlA optsA).2.name
        = if n = "/" then "/"
          else if infl.pluralize (stripName n) = "" then "/"
          else infl.pluralize (stripName n)) ∧
    (resource infl st name ctrlA optsA).routes
      = st.routes ++ (createResource infl st name ctrlA optsA).2.routes ∧
    (resource infl st name ctrlA optsA).routes.length = st.routes.length + 7 ∧
    (resource infl st name ctrlA optsA).resources
      = st.resources ++ [(createResource infl st name ctrlA optsA).2] := by
  refine ⟨rfl, rfl, rfl, ?_, ?_, ?_, rfl⟩
  · intro n hn
    subst hn
    by_cases h : n = "/"
    · simp [createResource, h]
    · simp [createResource, h]
  · simp [resource, addResource, addRoutes, createResource]
  · simp [resource, addResource, addRoutes, createResource]

/-- Claim C1: under the default configuration, `createResource(n)`
returns exactly 7 descriptors in action order index, new, create, show,
edit, update, remove, with verbs GET, GET, POST, GET, GET, PUT, DELETE
and path patterns `/{route}`, `/{route}/new`, `/{route}`,
`/{route}/{param}`, `/{route}/{param}/edit`, `/{route}/{param}`,
`/{route}/{param}`, collapsing to `/`, `/new`, `/`, `/:id`,
`/:id/edit`, `/:id`, `/:id` for the root resource. -/
theorem createResource_default_table (infl : Inflection) (st : RouterState)
    (name : String) (hopts : st.options = defaultOptions) :
    (createResource infl st (NameArg.str name) none none).2.routes.length = 7 ∧
    (createResource infl st (NameArg.str name) none none).2.routes.map (fun rt => rt.method)
      = ["GET", "GET", "POST", "GET", "GET", "PUT", "DELETE"] ∧
    (name = "/" →
      (createResource infl st (NameArg.str name) none none).2.routes.map (fun rt => rt.route)
        = ["/", "/new", "/", "/:id", "/:id/edit", "/:id", "/:id"]) ∧
    (∀ seg par, seg = infl.pluralize (stripName name) →
      par = ":" ++ infl.singularize (stripName name) →
      name ≠ "/" → seg ≠ "" →
      (createResource infl st (NameArg.str name) none none).2.routes.map (fun rt => rt.route)
        = ["/" ++ seg, "/" ++ seg ++ "/new", "/" ++ seg, "/" ++ seg ++ "/" ++ par,
           "/" ++ seg ++ "/" ++ par ++ "/edit", "/" ++ seg ++ "/" ++ par,
           "/" ++ seg ++ "/" ++ par]) := by
  have hm : mergeOptions st.options (patchOf (none : Option JsObj)) = defaultOptions := by
    rw [hopts]
    rfl
  refine ⟨rfl, ?_, ?_, ?_⟩
  · simp only [createResource, hm]
    rfl
  · intro h
    subst h
    simp only [createResource, hm]
    norm_num
    decide
  · intro seg par hseg hpar hne hseg'
    subst hseg
    subst hpar
    simp only [createResource, hm, List.map]
    simp only [hne, ne_eq, not_false_eq_true, if_true, ite_true, createRoute]
    rw [r_one _ hseg', r_two _ _ hseg' (by decide),
      r_two _ _ hseg' (colon_append_ne _),
      r_three _ _ _ hseg' (colon_append_ne _) (by decide)]
    have e1 : ("/" : String) ++ "new" = "/new" := rfl
    have e2 : ("/" : String) ++ "edit" = "/edit" := rfl
    simp [String.append_assoc, e1, e2]

/-- Witness for C1 at a concrete name with the default configuration. -/
theorem createResource_default_table_witness :
    (createResource inflId initialState (NameArg.str "cats") none none).2.routes.map
        (fun rt => rt.method)
      = ["GET", "GET", "POST", "GET", "GET", "PUT", "DELETE"] ∧
    (createResource inflId initialState (NameArg.str "cats") none none).2.routes.map
        (fun rt => rt.route)
      = ["/cats", "/cats/new", "/cats", "/cats/:cat", "/cats/:cat/edit", "/cats/:cat",
         "/cats/:cat"] ∧
    (createResource inflId initialState (NameArg.str "/") none none).2.routes.map
        (fun rt => rt.route)
      = ["/", "/new", "/", "/:id", "/:id/edit", "/:id", "/:id"] := by
  have h1 := createResource_default_table inflId initialState "cats" rfl
  have h2 := createResource_default_table inflId initialState "/" rfl
  refine ⟨h1.2.1, ?_, h2.2.2.1 rfl⟩
  have h3 := h1.2.2.2 "cats" ":cat" (by decide) (by decide) (by decide) (by decide)
  simpa using h3

/-- An options object overriding only `methods.put` to `post`. -/
def putPostPatch : OptionsPatch :=
  { methods := { get := none, put := some "post", post := none, del := none, delete := none }
    map := noPatch.map }

/-- An options object remapping only `map.index` to `list`. -/
def mapListPatch : OptionsPatch :=
  { methods := noPatch.methods
    map := { index := some "list", new := none, create := none, «show» := none
             edit := none, update := none, remove := none } }

/-- An options-only object argument (no controller properties). -/
def mkOpts (p : OptionsPatch) : JsObj :=
  { ctrl := [], patch := p }

/-- Claim C3 (amended): an object `name` is reinterpreted as the
controller, with the options taken from the controller slot and the
name falling back to the root marker; any other non-string name is
silently coerced to the root resource; the root name yields segment
`""` and parameter `:id`; a non-root string name yields segment
`pluralize(n)` and parameter `":" ++ singularize(n)` where `n` is the
name with a leading `/` stripped. -/
theorem createResource_name_coercion (infl : Inflection) (st : RouterState)
    (ctrlA optsA : Option JsObj) :
    (∀ o, createResource infl st (NameArg.obj o) ctrlA optsA
        = createResource infl st (NameArg.str "/") (some o) ctrlA) ∧
    (createResource infl st NameArg.otherNonString ctrlA optsA
        = createResource infl st (NameArg.str "/") ctrlA optsA) ∧
    ((createResource infl st (NameArg.str "/") ctrlA optsA).2.routes.map
        (fun rt => rt.route)
      = ["/", "/new", "/", "/:id", "/:id/edit", "/:id", "/:id"]) ∧
    (∀ n, n ≠ "/" →
      (createResource infl st (NameArg.str n) ctrlA optsA).2.routes.map
          (fun rt => rt.route)
        = [r [infl.pluralize (stripName n)],
           r [infl.pluralize (stripName n), "new"],
           r [infl.pluralize (stripName n)],
           r [infl.pluralize (stripName n), ":" ++ infl.singularize (stripName n)],
           r [infl.pluralize (stripName n), ":" ++ infl.singularize (stripName n), "edit"],
           r [infl.pluralize (stripName n), ":" ++ infl.singularize (stripName n)],
           r [infl.pluralize (stripName n), ":" ++ infl.singularize (stripName n)]]) := by
  refine ⟨fun o => rfl, rfl, ?_, ?_⟩
  · simp only [createResource, createRoute, List.map]
    norm_num
    decide
  · intro n hn
    simp [createResource, createRoute, hn]

/-- Witness for the amended C3 at a concrete non-root name. -/
theorem createResource_name_coercion_witness :
    (createResource inflId initialState (NameArg.str "cats") none none).2.routes.map
        (fun rt => rt.route)
      = ["/cats", "/cats/new", "/cats", "/cats/:cat", "/cats/:cat/edit", "/cats/:cat",
         "/cats/:cat"] := by
  have h := (createResource_name_coercion inflId initialState none none).2.2.2
    "cats" (by decide)
  rw [h]
  decide

/-- Counterexample to C3 as stated: for the non-root name `/cat` the
code pluralizes the slash-stripped name, so the resulting segment is
not `pluralize("/cat")`. -/
theorem createResource_pluralize_counterexample :
    (createResource inflId initialState (NameArg.str "/cat") none none).2.name = "cat" ∧
    inflId.pluralize "/cat" = "/cat" ∧
    (createResource inflId initialState (NameArg.str "/cat") none none).2.name
      ≠ inflId.pluralize "/cat" ∧
    (nthR (createResource inflId initialState (NameArg.str "/cat") none none).2.routes 0).route
      = "/cat" ∧
    (nthR (createResource inflId initialState (NameArg.str "/cat") none none).2.routes 0).route
      ≠ "/" ++ inflId.pluralize "/cat" := by
  decide

/-- Claim C5: each descriptor's verb is resolved from the merged
configuration's `methods` (the delete verb from `methods.del` when
set, else `methods.delete`), and its handlers from
`controller[configuration.map[action]]`; overriding `methods.put` to
`post` yields verb POST for update, and remapping `map.index` to
`list` pulls the index handlers from `controller.list`. -/
theorem createResource_resolution (infl : Inflection) (st : RouterState) (name : String)
    (ctrlA optsA : Option JsObj) :
    ((createResource infl st (NameArg.str name) ctrlA optsA).2.routes.map
        (fun rt => rt.method)
      = [upper (mergeOptions st.options (patchOf optsA)).methods.get,
         upper (mergeOptions st.options (patchOf optsA)).methods.get,
         upper (mergeOptions st.options (patchOf optsA)).methods.post,
         upper (mergeOptions st.options (patchOf optsA)).methods.get,
         upper (mergeOptions st.options (patchOf optsA)).methods.get,
         upper (mergeOptions st.options (patchOf optsA)).methods.put,
         upper ((mergeOptions st.options (patchOf optsA)).methods.del.getD
           (mergeOptions st.options (patchOf optsA)).methods.delete)]) ∧
    ((createResource infl st (NameArg.str name) ctrlA optsA).2.routes.map
        (fun rt => rt.handlers)
      = [handlersOf (extendCtrl defaultController (ctrlOf ctrlA))
           (mergeOptions st.options (patchOf optsA)).map.index,
         handlersOf (extendCtrl defaultController (ctrlOf ctrlA))
           (mergeOptions st.options (patchOf optsA)).map.new,
         handlersOf (extendCtrl defaultController (ctrlOf ctrlA))
           (mergeOptions st.options (patchOf optsA)).map.create,
         handlersOf (extendCtrl defaultController (ctrlOf ctrlA))
           (mergeOptions st.options (patchOf optsA)).map.«show»,
         handlersOf (extendCtrl defaultController (ctrlOf ctrlA))
           (mergeOptions st.options (patchOf optsA)).map.edit,
         handlersOf (extendCtrl defaultController (ctrlOf ctrlA))
           (mergeOptions st.options (patchOf optsA)).map.update,
         handlersOf (extendCtrl defaultController (ctrlOf ctrlA))
           (mergeOptions st.options (patchOf optsA)).map.remove]) ∧
    (nthR (createResource infl st (NameArg.str name) ctrlA
        (some (mkOpts putPostPatch))).2.routes 5).method = "POST" ∧
    (nthR (createResource infl st (NameArg.str name) ctrlA
        (some (mkOpts mapListPatch))).2.routes 0).handlers
      = handlersOf (extendCtrl defaultController (ctrlOf ctrlA)) "list" := by
  refine ⟨rfl, rfl, ?_, rfl⟩
  show upper "post" = "POST"
  decide

/-- Claim C6: `createResource` shallow-merges the supplied options into
the router's persistent configuration, override wins per key, and the
merged configuration is the one subsequent calls on the same router
read; with no further override a later call leaves it unchanged. -/
theorem createResource_options_merge (infl : Inflection) (st : RouterState)
    (name : String) (ctrlA optsA : Option JsObj) :
    (createResource infl st (NameArg.str name) ctrlA optsA).1.options
      = mergeOptions st.options (patchOf optsA) ∧
    (∀ v, (patchOf optsA).methods.put = some v →
      (createResource infl st (NameArg.str name) ctrlA optsA).1.options.methods.put = v) ∧
    ((patchOf optsA).methods.put = none →
      (createResource infl st (NameArg.str name) ctrlA optsA).1.options.methods.put
        = st.options.methods.put) ∧
    (∀ v, (patchOf optsA).map.index = some v →
      (createResource infl st (NameArg.str name) ctrlA optsA).1.options.map.index = v) ∧
    ((patchOf optsA).map.index = none →
      (createResource infl st (NameArg.str name) ctrlA optsA).1.options.map.index
        = st.options.map.index) ∧
    (∀ name2 ctrl2,
      (createResource infl ((createResource infl st (NameArg.str name) ctrlA optsA).1)
          (NameArg.str name2) ctrl2 none).1.options
        = mergeOptions st.options (patchOf optsA) ∧
      (nthR (createResource infl ((createResource infl st (NameArg.str name) ctrlA optsA).1)
          (NameArg.str name2) ctrl2 none).2.routes 5).method
        = upper (mergeOptions st.options (patchOf optsA)).methods.put) := by
  refine ⟨rfl, ?_, ?_, ?_, ?_, ?_⟩
  · intro v hv
    show (mergeOptions st.options (patchOf optsA)).methods.put = v
    simp [mergeOptions, mergeMethods, hv]
  · intro hv
    show (mergeOptions st.options (patchOf optsA)).methods.put = st.options.methods.put
    simp [mergeOptions, mergeMethods, hv]
  · intro v hv
    show (mergeOptions st.options (patchOf optsA)).map.index = v
    simp [mergeOptions, mergeMap, hv]
  · intro hv
    show (mergeOptions st.options (patchOf optsA)).map.index = st.options.map.index
    simp [mergeOptions, mergeMap, hv]
  · intro name2 ctrl2
    exact ⟨rfl, rfl⟩

/-- Witness for C6: a concrete `put → post` override sticks in the
router's options and drives the next call's update verb. -/
theorem createResource_options_merge_witness :
    (createResource inflId initialState (NameArg.str "cats") none
        (some (mkOpts putPostPatch))).1.options.methods.put = "post" ∧
    (nthR (createResource inflId
        ((createResource inflId initialState (NameArg.str "cats") none
          (some (mkOpts putPostPatch))).1)
        (NameArg.str "dogs") none none).2.routes 5).method = "POST" := by
  have h := createResource_options_merge inflId initialState "cats" none
    (some (mkOpts putPostPatch))
  constructor
  · exact h.2.1 "post" rfl
  · have h2 := (h.2.2.2.2.2 "dogs" none).2
    rw [h2]
    decide

/-! Helper lemma for C7: overlaying a controller onto the default
controller never loses the canonical actions' handlers. -/

theorem handlersOf_extend_ne (key : String)
    (hkey : ctrlGet defaultController key = some [Handler.notImplemented]) :
    ∀ c : Controller, (∀ kv ∈ c, kv.2 ≠ []) →
      handlersOf (extendCtrl defaultController c) key ≠ [] := by
  intro c
  induction c with
  | nil =>
      intro _
      simp [handlersOf, extendCtrl, hkey]
  | cons kv rest ih =>
      intro hc
      by_cases hk : kv.1 = key
      · have hne := hc kv (List.mem_cons_self _ _)
        simp [handlersOf, extendCtrl, ctrlGet, hk, hne]
      · have hrest := ih fun q hq => hc q (List.mem_cons_of_mem _ hq)
        simpa [handlersOf, extendCtrl, ctrlGet, hk] using hrest

/-- Claim C7: the supplied controller is overlaid onto a default
controller whose seven entries are all the 501 Not Implemented
handler, so (with the canonical action map, and well-formed handler
chains) every one of the seven descriptors has at least one handler;
table construction is total and never fails. -/
theorem controller_defaulting_total (infl : Inflection) (st : RouterState)
    (name : String) (ctrlA optsA : Option JsObj)
    (hmap : (mergeOptions st.options (patchOf optsA)).map = defaultControllerMap)
    (hc : ∀ kv ∈ ctrlOf ctrlA, kv.2 ≠ []) :
    (∀ a ∈ ["index", "new", "create", "show", "edit", "update", "remove"],
      ctrlGet defaultController a = some [Handler.notImplemented]) ∧
    ∀ rt ∈ (createResource infl st (NameArg.str name) ctrlA optsA).2.routes,
      rt.handlers ≠ [] := by
  constructor
  · decide
  · intro rt hrt
    simp only [createResource, List.mem_cons, List.not_mem_nil, or_false] at hrt
    rcases hrt with h | h | h | h | h | h | h <;> subst h <;>
      simp only [createRoute, hmap, defaultControllerMap] <;>
      exact handlersOf_extend_ne _ (by decide) _ hc

/-- Witness for C7: the default controller fills in the index action. -/
theorem controller_defaulting_total_witness :
    (nthR (createResource inflId initialState (NameArg.str "cats") none none).2.routes
      0).handlers ≠ [] := by
  have h := controller_defaulting_total inflId initialState "cats" none none rfl
    (by simp [ctrlOf])
  exact h.2 _ (by decide)

/-- Witness for C4 at a concrete resource creation. -/
theorem createResource_registry_effects_witness :
    (createResource inflId initialState (NameArg.str "cats") none none).2.name = "cats" ∧
    sampleState.routes = [] ∧
    sampleState.resources = [sampleTable] := by
  have h := createResource_registry_effects inflId initialState
    (NameArg.str "cats") none none
  refine ⟨?_, ?_, ?_⟩
  · have := h.2.2.2.1 "cats" rfl
    simpa [inflId, stripName] using this
  · exact h.1
  · exact h.2.1

end KoaRestRouter
